import Mathlib

/-!
Shallow embedding of the tabular-cleaning pipeline of
`src/DS_sample/Data_Cleaning.ipynb` (repository Shobha2025/Data-Science).

The notebook is a linear sequence of pandas calls on a dataframe `df`:

  1. `df['Subscription Date'] = pd.to_datetime(df['Subscription Date'], errors='coerce')`
  2. `df = df.dropna(subset=['Email', 'Phone 1'])`
  3. `df = df.drop_duplicates()`
  4. `df.columns = df.columns.str.strip()`
  5. `df['City'] = df['City'].fillna('Unknown')`
  6. `df['Country'] = df['Country'].str.strip().str.upper()`

The spec names these operations `parseDates`, `dropRowsWithMissing`,
`deduplicate`, `trimColumnNames`, `fillMissing`, `normalizeCase`.

Embedding decisions, each matching the library semantics the code relies on:
* A cell value is a string, an integer, a datetime (an `Int` of nanoseconds
  since the epoch, which is exactly the `datetime64[ns]` representation) or
  the missing marker (pandas `NaN`/`NaT`).
* `dropna` drops a row when a subset value is the missing marker; an empty
  string is a value, not missing, and is kept (pandas behavior).
* The Series `.str` accessor first validates the column: pandas checks
  `infer_dtype(series, skipna=True)` against the accepted set (string,
  empty, bytes, mixed, mixed-integer) and raises `AttributeError` when a
  non-empty column's non-missing values are homogeneous and non-string
  (all integers, or all datetimes); the script aborts there.  On an
  accepted column the accessor methods (`.str.strip()`, `.str.upper()`)
  map string elements and turn every non-string element, missing included,
  into the missing marker.
* `drop_duplicates()` keeps the first occurrence and preserves order; two
  missing markers compare equal for duplicate detection, as in pandas.
* Referencing an absent column label raises `KeyError` in pandas, which
  aborts the script; the spec calls this `SchemaError`.  Operations that take
  a column are therefore embedded in `Except`.
* `pd.to_datetime(_, errors='coerce')` never raises: datetimes pass through,
  integers are epoch nanoseconds, strings are parsed and every unparseable
  value becomes the missing marker.  String parsing is modelled for the
  ISO `YYYY-MM-DD` format carried by the dataset (the spec leaves the exact
  accepted formats to the library and asks the implementation to document
  its policy).
-/

deriving instance DecidableEq for Except

/-- A cell value of the dataframe: string, integer, datetime
(nanoseconds since the Unix epoch, pandas `datetime64[ns]`),
or the missing marker (`NaN`/`NaT`). -/
inductive Value where
  | vStr : String → Value
  | vInt : Int → Value
  | vDate : Int → Value
  | missing : Value
deriving DecidableEq, Repr

/-- One row of the dataframe, in column order. -/
abbrev Record := List Value

/-- The dataframe: ordered column names plus ordered rows. -/
structure Dataset where
  cols : List String
  rows : List Record
deriving DecidableEq, Repr

/-- Failures that abort the script: `schemaError` when an operation
references an absent column (pandas `KeyError`, the `SchemaError` of the
spec), and `attrError` when the `.str` accessor is used on a column whose
non-missing values are homogeneous and non-string
(pandas `AttributeError`). -/
inductive CleanError where
  | schemaError : String → CleanError
  | attrError : String → CleanError
deriving DecidableEq, Repr

/-- Case mode of `normalizeCase`. -/
inductive Mode where
  | upper : Mode
  | lower : Mode
deriving DecidableEq, Repr

/-- `True` for the missing marker only: pandas `isna`.
An empty string is not missing. -/
def Value.isNA : Value → Bool
  | .missing => true
  | _ => false

/-- Is the value a string? -/
def Value.isStr : Value → Bool
  | .vStr _ => true
  | _ => false

/-- Is the value an integer? -/
def Value.isInt : Value → Bool
  | .vInt _ => true
  | _ => false

/-- Is the value a datetime? -/
def Value.isDate : Value → Bool
  | .vDate _ => true
  | _ => false

/-- Python `str.strip` on the character list: remove leading and trailing
whitespace. -/
def stripChars (l : List Char) : List Char :=
  ((l.dropWhile Char.isWhitespace).reverse.dropWhile Char.isWhitespace).reverse

/-- Python `str.strip` on strings. -/
def pstrip (s : String) : String :=
  (stripChars s.toList).asString

/-- Python `str.upper`: uppercase every character. -/
def pupper (s : String) : String :=
  (s.toList.map Char.toUpper).asString

/-- Python `str.lower`: lowercase every character. -/
def plower (s : String) : String :=
  (s.toList.map Char.toLower).asString

/-- Split a character list on a separator character
(`"a-b-c"` becomes `["a", "b", "c"]`; empty parts are kept). -/
def splitOnChar (sep : Char) : List Char → List (List Char)
  | [] => [[]]
  | ch :: rest =>
    if ch = sep then [] :: splitOnChar sep rest
    else
      match splitOnChar sep rest with
      | [] => [[ch]]
      | h :: t => (ch :: h) :: t

/-- Parse a list of decimal digit characters (at least one, digits only). -/
def parseDigits : List Char → Option Nat
  | [] => none
  | l =>
    l.foldl (fun acc ch =>
      acc.bind fun n => if ch.isDigit then some (n * 10 + (ch.toNat - 48)) else none)
      (some 0)

/-- Leap-year test of the Gregorian calendar. -/
def isLeap (y : Nat) : Bool :=
  (y % 4 == 0 && y % 100 != 0) || y % 400 == 0

/-- Days in a month of the Gregorian calendar. -/
def daysInMonth (y m : Nat) : Nat :=
  if m == 2 then (if isLeap y then 29 else 28)
  else if m == 4 || m == 6 || m == 9 || m == 11 then 30
  else 31

/-- Days from the civil epoch 1970-01-01 (standard civil-calendar count). -/
def daysFromCivil (y m d : Int) : Int :=
  let y2 : Int := if m ≤ 2 then y - 1 else y
  let era : Int := (if 0 ≤ y2 then y2 else y2 - 399) / 400
  let yoe : Int := y2 - era * 400
  let mp : Int := (m + 9) % 12
  let doy : Int := (153 * mp + 2) / 5 + d - 1
  let doe : Int := yoe * 365 + yoe / 4 - yoe / 100 + doy
  era * 146097 + doe - 719468

/-- Nanoseconds since the epoch of midnight on a civil date. -/
def ymdToNs (y m d : Nat) : Int :=
  daysFromCivil (Int.ofNat y) (Int.ofNat m) (Int.ofNat d) * 86400 * 1000000000

/-- Parse an ISO `YYYY-MM-DD` date string to epoch nanoseconds;
`none` when the string is not a valid date of that shape. -/
def parseYMD (s : String) : Option Int :=
  match (splitOnChar '-' s.toList).map parseDigits with
  | [some y, some m, some d] =>
    if 1 ≤ m && m ≤ 12 && 1 ≤ d && d ≤ daysInMonth y m then
      some (ymdToNs y m d)
    else none
  | _ => none

/-- `pd.to_datetime(_, errors='coerce')` on one element: datetimes pass
through, integers are epoch nanoseconds, parseable strings become datetimes,
everything unparseable (and the missing marker) becomes the missing marker.
Total: never raises. -/
def toDatetime : Value → Value
  | .vDate t => .vDate t
  | .vInt n => .vDate n
  | .vStr s =>
    match parseYMD s with
    | some t => .vDate t
    | none => .missing
  | .missing => .missing

/-- Does the `.str` accessor accept the column?  pandas validates
`infer_dtype(series, skipna=True)` against the accepted inferred dtypes
(string, empty, bytes, mixed, mixed-integer).  Over this value domain that
means: an empty or all-missing column is accepted ("empty"), a column with
a string among its non-missing values is accepted ("string",
"mixed-integer" or "mixed"), a mix of integers and datetimes is accepted
("mixed-integer"), and a non-empty column whose non-missing values are all
integers ("integer") or all datetimes ("datetime") is refused with
`AttributeError`. -/
def strAccOk (col : List Value) : Bool :=
  let vs := col.filter fun v => !(v.isNA)
  vs.isEmpty || vs.any Value.isStr || (vs.any Value.isInt && vs.any Value.isDate)

/-- Series accessor `.str.strip()` on one element of an accepted column:
strings are stripped, every non-string element (missing included) becomes
the missing marker.  The series-level acceptance test `strAccOk` is checked
by the caller before this elementwise map runs. -/
def strAccStrip : Value → Value
  | .vStr s => .vStr (pstrip s)
  | _ => .missing

/-- Series accessor `.str.upper()` on one element of an accepted column
(acceptance checked by the caller, as for `strAccStrip`). -/
def strAccUpper : Value → Value
  | .vStr s => .vStr (pupper s)
  | _ => .missing

/-- Series accessor `.str.lower()` on one element of an accepted column
(acceptance checked by the caller, as for `strAccStrip`). -/
def strAccLower : Value → Value
  | .vStr s => .vStr (plower s)
  | _ => .missing

/-- `.str.strip()` followed by the case accessor of mode `m`, on one
element of an accepted column.  The second accessor sees only strings and
missing markers (inferred dtype string or empty), so it never adds a
validation failure of its own. -/
def applyCase (m : Mode) (v : Value) : Value :=
  match m with
  | .upper => strAccUpper (strAccStrip v)
  | .lower => strAccLower (strAccStrip v)

/-- `fillna v` on one element: the missing marker becomes `v`,
every other value is unchanged. -/
def fillnaVal (v : Value) : Value → Value
  | .missing => v
  | w => w

/-- Index of a column label, `none` when the label is absent. -/
def Dataset.colIdx (d : Dataset) (c : String) : Option Nat :=
  d.cols.findIdx? (· == c)

/-- The value of row `j` at column `c`, `none` when the row or the column
does not exist. -/
def Dataset.at (d : Dataset) (j : Nat) (c : String) : Option Value :=
  (d.rows[j]?).bind fun r => (d.colIdx c).map fun i => r.getD i .missing

/-- The series of values of the column at index `i`, top to bottom. -/
def Dataset.columnVals (d : Dataset) (i : Nat) : List Value :=
  d.rows.map fun r => r.getD i .missing

/-- A dataset is well formed when every row has one value per column
(the invariant stated by the spec data model). -/
def Dataset.wf (d : Dataset) : Prop :=
  ∀ r ∈ d.rows, r.length = d.cols.length

instance (d : Dataset) : Decidable d.wf := by
  unfold Dataset.wf
  infer_instance

/-- Rewrite column `c` of the dataframe elementwise by `f`
(the shape of `df[c] = f-of-series(df[c])`); `KeyError` when `c` is absent. -/
def mapColumn (d : Dataset) (c : String) (f : Value → Value) :
    Except CleanError Dataset :=
  match d.colIdx c with
  | none => .error (.schemaError c)
  | some i => .ok ⟨d.cols, d.rows.map fun r => r.set i (f (r.getD i .missing))⟩

/-- `df[c] = pd.to_datetime(df[c], errors='coerce')` (notebook step 2). -/
def parseDates (d : Dataset) (c : String) : Except CleanError Dataset :=
  mapColumn d c toDatetime

/-- Does row `r` have the missing marker at column `c`?  Used by `dropna`. -/
def rowMissingAt (cols : List String) (r : Record) (c : String) : Bool :=
  match cols.findIdx? (· == c) with
  | some i => (r.getD i .missing).isNA
  | none => false

/-- `df = df.dropna(subset=cs)` (notebook step 3): `KeyError` on the first
absent label of `cs`, otherwise remove every row that has the missing marker
in some column of `cs`. -/
def dropRowsWithMissing (d : Dataset) (cs : List String) :
    Except CleanError Dataset :=
  match cs.find? (fun c => !(d.cols.contains c)) with
  | some c => .error (.schemaError c)
  | none => .ok ⟨d.cols, d.rows.filter fun r => !(cs.any (rowMissingAt d.cols r))⟩

/-- `drop_duplicates()` scan: keep an element when it is not in the set of
elements already seen, drop it otherwise. -/
def dedupSeen {α : Type} [DecidableEq α] (seen : List α) : List α → List α
  | [] => []
  | a :: l => if a ∈ seen then dedupSeen seen l else a :: dedupSeen (a :: seen) l

/-- `drop_duplicates()` on the row list: keep the first occurrence of each
row, drop every later field-for-field identical copy, preserve order. -/
def dedupKeepFirst {α : Type} [DecidableEq α] (l : List α) : List α :=
  dedupSeen [] l

/-- `df = df.drop_duplicates()` (notebook step 4). -/
def deduplicate (d : Dataset) : Dataset :=
  ⟨d.cols, dedupKeepFirst d.rows⟩

/-- `df.columns = df.columns.str.strip()` (notebook step 5). -/
def trimColumnNames (d : Dataset) : Dataset :=
  ⟨d.cols.map pstrip, d.rows⟩

/-- `df[c] = df[c].fillna(v)` (notebook step 6). -/
def fillMissing (d : Dataset) (c : String) (v : Value) :
    Except CleanError Dataset :=
  mapColumn d c (fillnaVal v)

/-- `df[c] = df[c].str.strip().str.upper()` (notebook step 7); the spec also
admits the lower mode.  `KeyError` when `c` is absent; `AttributeError` when
the `.str` accessor refuses the column (`strAccOk` fails); otherwise the
column is rewritten elementwise. -/
def normalizeCase (d : Dataset) (c : String) (m : Mode) :
    Except CleanError Dataset :=
  match d.colIdx c with
  | none => .error (.schemaError c)
  | some i =>
    if strAccOk (d.columnVals i) then mapColumn d c (applyCase m)
    else .error (.attrError c)

/-- One pipeline step, as named by the spec. -/
inductive Step where
  | pDates : String → Step
  | dropMissing : List String → Step
  | dedup : Step
  | trimCols : Step
  | fill : String → Value → Step
  | normCase : String → Mode → Step
deriving DecidableEq, Repr

/-- Apply one step to the dataframe. -/
def applyStep (d : Dataset) : Step → Except CleanError Dataset
  | .pDates c => parseDates d c
  | .dropMissing cs => dropRowsWithMissing d cs
  | .dedup => .ok (deduplicate d)
  | .trimCols => .ok (trimColumnNames d)
  | .fill c v => fillMissing d c v
  | .normCase c m => normalizeCase d c m

/-- Run the steps in order, aborting on the first failure
(the notebook is a straight-line script; an uncaught `KeyError` stops it). -/
def runPipeline (d : Dataset) : List Step → Except CleanError Dataset
  | [] => .ok d
  | s :: rest =>
    match applyStep d s with
    | .ok e => runPipeline e rest
    | .error err => .error err

/-! ## Definitions following the words of the spec claims, for comparison

The two definitions below are NOT translations of the source; they state
what two spec claims predict, so that the prediction can be compared with
the behavior embedded above. -/

/-- Stated from the spec claim words for `normalizeCase(c, upper)`: trim then
upcase every string value, and let every non-string value pass through the
operation unchanged. -/
def normalizeUpperPassThruSpec : Value → Value
  | .vStr s => .vStr (pupper (pstrip s))
  | v => v

/-- Stated from the spec claim words for `dropRowsWithMissing(cs)`: remove
exactly the records in which some listed column is missing or empty. -/
def dropRowsMissingOrEmptySpec (d : Dataset) (cs : List String) : List Record :=
  d.rows.filter fun r => !(cs.any fun c =>
    match d.cols.findIdx? (· == c) with
    | some i => (r.getD i .missing).isNA || (r.getD i .missing == .vStr "")
    | none => false)

/-! ## Concrete datasets used by witnesses and counterexamples -/

/-- Scenario data of the spec: a Country column holding `"chile"`,
`" Chile "` and `"CHILE"`. -/
def dsCountry : Dataset :=
  ⟨["Country"], [[.vStr "chile"], [.vStr " Chile "], [.vStr "CHILE"]]⟩

/-- A Country column mixing a string value with a non-string value; such a
mixed column is accepted by the `.str` accessor (inferred dtype
mixed-integer), which then coerces the non-string element. -/
def dsCountryMixed : Dataset :=
  ⟨["Country"], [[.vStr "chile"], [.vInt 7]]⟩

/-- Five records; the third has the missing marker in the Email column
(an empty field of the input file is loaded as the missing marker). -/
def dsEmails5Missing : Dataset :=
  ⟨["Name", "Email"],
    [[.vStr "a", .vStr "a@x.com"],
     [.vStr "b", .vStr "b@x.com"],
     [.vStr "c", .missing],
     [.vStr "d", .vStr "d@x.com"],
     [.vStr "e", .vStr "e@x.com"]]⟩

/-- Five records; the third has an empty string (not the missing marker)
in the Email column. -/
def dsEmails5EmptyStr : Dataset :=
  ⟨["Name", "Email"],
    [[.vStr "a", .vStr "a@x.com"],
     [.vStr "b", .vStr "b@x.com"],
     [.vStr "c", .vStr ""],
     [.vStr "d", .vStr "d@x.com"],
     [.vStr "e", .vStr "e@x.com"]]⟩

/-- Two field-for-field identical records in different row positions. -/
def dsDupRows : Dataset :=
  ⟨["Name", "City"],
    [[.vStr "a", .vStr "x"], [.vStr "a", .vStr "x"]]⟩

/-- A Subscription Date column holding a parseable and an unparseable
date string. -/
def dsDates : Dataset :=
  ⟨["Subscription Date"], [[.vStr "2020-08-24"], [.vStr "not-a-date"]]⟩

/-- A City column with a missing value and a present value. -/
def dsCity : Dataset := ⟨["City"], [[.missing], [.vStr "Oslo"]]⟩

/-! ## Helper lemmas on `dropWhile` and `pstrip` -/

theorem dropWhile_dropWhile (p : Char → Bool) (l : List Char) :
    (l.dropWhile p).dropWhile p = l.dropWhile p := by
  induction l with
  | nil => rfl
  | cons a l ih =>
    by_cases h : p a <;> simp [List.dropWhile_cons, h, ih]

theorem dropWhile_suffix_self (p : Char → Bool) (l : List Char) :
    l.dropWhile p <:+ l := by
  induction l with
  | nil => exact List.suffix_rfl
  | cons a t ih =>
    by_cases h : p a
    · simpa [List.dropWhile_cons, h] using ih.trans (List.suffix_cons a t)
    · simp [List.dropWhile_cons, h]

theorem dropWhile_eq_self_of_isPrefix (p : Char → Bool) {l₁ l₂ : List Char}
    (hpre : l₁ <+: l₂) (h : l₂.dropWhile p = l₂) : l₁.dropWhile p = l₁ := by
  cases l₁ with
  | nil => rfl
  | cons a t =>
    obtain ⟨u, hu⟩ := hpre
    subst hu
    rw [List.cons_append, List.dropWhile_cons] at h
    by_cases hpa : p a
    · exfalso
      simp only [hpa, if_pos] at h
      have hlen := congrArg List.length h
      have hle :=
        ((dropWhile_suffix_self p (t ++ u)).sublist).length_le
      simp only [List.length_cons] at hlen
      omega
    · simp [List.dropWhile_cons, hpa]

theorem reverse_isPrefix_reverse {l₁ l₂ : List Char} (h : l₁ <:+ l₂) :
    l₁.reverse <+: l₂.reverse := by
  obtain ⟨u, hu⟩ := h
  subst hu
  exact ⟨u.reverse, by rw [List.reverse_append]⟩

theorem stripChars_isPrefix_dropWhile (l : List Char) :
    stripChars l <+: l.dropWhile Char.isWhitespace := by
  unfold stripChars
  have hsuf := dropWhile_suffix_self Char.isWhitespace
    (l.dropWhile Char.isWhitespace).reverse
  have := reverse_isPrefix_reverse hsuf
  simpa using this

theorem stripChars_idem (l : List Char) :
    stripChars (stripChars l) = stripChars l := by
  have h₁ : (stripChars l).dropWhile Char.isWhitespace = stripChars l := by
    refine dropWhile_eq_self_of_isPrefix Char.isWhitespace
      (stripChars_isPrefix_dropWhile l) ?_
    exact dropWhile_dropWhile Char.isWhitespace l
  show ((((stripChars l).dropWhile Char.isWhitespace).reverse.dropWhile
      Char.isWhitespace).reverse) = stripChars l
  rw [h₁]
  conv_lhs => rw [show stripChars l =
    ((l.dropWhile Char.isWhitespace).reverse.dropWhile Char.isWhitespace).reverse
    from rfl]
  rw [List.reverse_reverse, dropWhile_dropWhile, ← stripChars]

theorem toList_asString (l : List Char) : (List.asString l).toList = l := rfl

theorem pstrip_idem (s : String) : pstrip (pstrip s) = pstrip s := by
  unfold pstrip
  rw [toList_asString, stripChars_idem]

/-! ## Helper lemmas on the duplicate-dropping scan -/

theorem mem_dedupSeen {α : Type} [DecidableEq α] {a : α} :
    ∀ {seen l : List α}, a ∈ dedupSeen seen l ↔ a ∈ l ∧ a ∉ seen := by
  intro seen l
  induction l generalizing seen with
  | nil => simp [dedupSeen]
  | cons b t ih =>
    by_cases hb : b ∈ seen
    · rw [dedupSeen, if_pos hb, ih]
      constructor
      · rintro ⟨ht, hs⟩
        exact ⟨List.mem_cons_of_mem b ht, hs⟩
      · rintro ⟨hbt, hs⟩
        rcases List.mem_cons.mp hbt with rfl | ht
        · exact absurd hb hs
        · exact ⟨ht, hs⟩
    · rw [dedupSeen, if_neg hb]
      constructor
      · intro hmem
        rcases List.mem_cons.mp hmem with rfl | ht
        · exact ⟨List.mem_cons_self a t, hb⟩
        · have := ih.mp ht
          refine ⟨List.mem_cons_of_mem b this.1, fun hs => this.2 ?_⟩
          exact List.mem_cons_of_mem b hs
      · rintro ⟨hbt, hs⟩
        rcases List.mem_cons.mp hbt with rfl | ht
        · exact List.mem_cons_self a _
        · by_cases hab : a = b
          · subst hab; exact List.mem_cons_self a _
          · refine List.mem_cons_of_mem b (ih.mpr ⟨ht, ?_⟩)
            intro hmem
            rcases List.mem_cons.mp hmem with h | h
            · exact hab h
            · exact hs h

theorem dedupSeen_sublist {α : Type} [DecidableEq α] :
    ∀ (seen l : List α), List.Sublist (dedupSeen seen l) l := by
  intro seen l
  induction l generalizing seen with
  | nil => simp [dedupSeen]
  | cons b t ih =>
    by_cases hb : b ∈ seen
    · rw [dedupSeen, if_pos hb]
      exact (ih seen).trans (List.sublist_cons_self b t)
    · rw [dedupSeen, if_neg hb]
      exact (ih (b :: seen)).cons₂ b

theorem nodup_dedupSeen {α : Type} [DecidableEq α] :
    ∀ (seen l : List α), (dedupSeen seen l).Nodup := by
  intro seen l
  induction l generalizing seen with
  | nil => simp [dedupSeen]
  | cons b t ih =>
    by_cases hb : b ∈ seen
    · rw [dedupSeen, if_pos hb]; exact ih seen
    · rw [dedupSeen, if_neg hb]
      refine List.nodup_cons.mpr ⟨fun hmem => ?_, ih (b :: seen)⟩
      exact (mem_dedupSeen.mp hmem).2 (List.mem_cons_self b seen)

theorem dedupSeen_eq_self {α : Type} [DecidableEq α] {seen l : List α}
    (hnd : l.Nodup) (hdis : ∀ a ∈ l, a ∉ seen) : dedupSeen seen l = l := by
  induction l generalizing seen with
  | nil => rfl
  | cons b t ih =>
    rw [dedupSeen, if_neg (hdis b (List.mem_cons_self b t))]
    have hnd' := List.nodup_cons.mp hnd
    congr 1
    refine ih hnd'.2 fun a ha => ?_
    intro hmem
    rcases List.mem_cons.mp hmem with rfl | h
    · exact hnd'.1 ha
    · exact hdis a (List.mem_cons_of_mem b ha) h

theorem dedupKeepFirst_idem {α : Type} [DecidableEq α] (l : List α) :
    dedupKeepFirst (dedupKeepFirst l) = dedupKeepFirst l := by
  unfold dedupKeepFirst
  exact dedupSeen_eq_self (nodup_dedupSeen [] l) (fun a _ h => List.not_mem_nil a h)

theorem dedupSeen_first_occ {α : Type} [DecidableEq α] {a : α} :
    ∀ {l₁ : List α} {seen : List α} (l₂ : List α), a ∉ seen → a ∉ l₁ →
      ∃ k₁ k₂, dedupSeen seen (l₁ ++ a :: l₂) = k₁ ++ a :: k₂ ∧
        List.Sublist k₁ l₁ := by
  intro l₁
  induction l₁ with
  | nil =>
    intro seen l₂ hs _
    refine ⟨[], dedupSeen (a :: seen) l₂, ?_, List.Sublist.refl []⟩
    simp [dedupSeen, hs]
  | cons b t ih =>
    intro seen l₂ hs hnl
    have hab : a ≠ b := fun h => hnl (h ▸ List.mem_cons_self b t)
    have hat : a ∉ t := fun h => hnl (List.mem_cons_of_mem b h)
    by_cases hb : b ∈ seen
    · rw [List.cons_append, dedupSeen, if_pos hb]
      obtain ⟨k₁, k₂, heq, hsub⟩ := ih l₂ hs hat
      exact ⟨k₁, k₂, heq, hsub.trans (List.sublist_cons_self b t)⟩
    · rw [List.cons_append, dedupSeen, if_neg hb]
      have hs' : a ∉ b :: seen := by
        intro h
        rcases List.mem_cons.mp h with h | h
        · exact hab h
        · exact hs h
      obtain ⟨k₁, k₂, heq, hsub⟩ := ih l₂ hs' hat
      exact ⟨b :: k₁, k₂, by rw [heq, List.cons_append], hsub.cons₂ b⟩

/-! ## Helper lemmas on column lookup and `mapColumn` -/

theorem colIdx_of_mem {d : Dataset} {c : String} (h : c ∈ d.cols) :
    ∃ i, d.colIdx c = some i := by
  exact ⟨d.cols.findIdx (· == c), List.findIdx?_eq_some_of_exists ⟨c, h, by simp⟩⟩

theorem colIdx_getElem {d : Dataset} {c : String} {i : Nat}
    (h : d.colIdx c = some i) : i < d.cols.length ∧ d.cols[i]? = some c := by
  unfold Dataset.colIdx at h
  rw [List.findIdx?_eq_some_iff_findIdx_eq] at h
  obtain ⟨hlt, hfi⟩ := h
  subst hfi
  have hp : (d.cols[d.cols.findIdx (· == c)] == c) = true :=
    List.findIdx_getElem (w := hlt)
  refine ⟨hlt, ?_⟩
  rw [List.getElem?_eq_getElem hlt]
  exact congrArg some (by simpa using hp)

theorem colIdx_of_not_mem {d : Dataset} {c : String} (h : c ∉ d.cols) :
    d.colIdx c = none := by
  unfold Dataset.colIdx
  rw [List.findIdx?_eq_none_iff]
  intro x hx
  simp only [beq_eq_false_iff_ne, ne_eq]
  exact fun hxc => h (hxc ▸ hx)

theorem mapColumn_absent {d : Dataset} {c : String} (f : Value → Value)
    (h : c ∉ d.cols) : mapColumn d c f = .error (.schemaError c) := by
  unfold mapColumn
  rw [colIdx_of_not_mem h]

theorem mapColumn_ok {d : Dataset} {c : String} (f : Value → Value)
    (h : c ∈ d.cols) :
    ∃ i, d.colIdx c = some i ∧
      mapColumn d c f =
        .ok ⟨d.cols, d.rows.map fun r => r.set i (f (r.getD i .missing))⟩ := by
  obtain ⟨i, hi⟩ := colIdx_of_mem h
  exact ⟨i, hi, by unfold mapColumn; rw [hi]⟩

theorem mapColumn_cols_length {d : Dataset} {c : String} {f : Value → Value}
    {e : Dataset} (he : mapColumn d c f = .ok e) :
    e.cols = d.cols ∧ e.rows.length = d.rows.length := by
  unfold mapColumn at he
  cases hidx : d.colIdx c with
  | none => rw [hidx] at he; exact absurd he (by simp)
  | some i =>
    rw [hidx] at he
    cases he
    exact ⟨rfl, by simp⟩

theorem mapColumn_at_other {d : Dataset} {c : String} {f : Value → Value}
    {e : Dataset} (he : mapColumn d c f = .ok e)
    {c' : String} (hne : c' ≠ c) (j : Nat) : e.at j c' = d.at j c' := by
  unfold mapColumn at he
  cases hidx : d.colIdx c with
  | none => rw [hidx] at he; exact absurd he (by simp)
  | some i =>
    rw [hidx] at he
    cases he
    show ((d.rows.map _)[j]?).bind _ = (d.rows[j]?).bind _
    rw [List.getElem?_map]
    cases hrow : d.rows[j]? with
    | none => rfl
    | some r =>
      simp only [Option.map_some', Option.some_bind]
      show (Dataset.colIdx ⟨d.cols, _⟩ c').map _ = (d.colIdx c').map _
      have hcols : Dataset.colIdx ⟨d.cols, d.rows.map fun r =>
          r.set i (f (r.getD i .missing))⟩ c' = d.colIdx c' := rfl
      rw [hcols]
      cases hidx' : d.colIdx c' with
      | none => rfl
      | some i' =>
        simp only [Option.map_some', Option.some.injEq]
        have hii : i ≠ i' := by
          intro hcontra
          subst hcontra
          have h₁ := (colIdx_getElem hidx).2
          have h₂ := (colIdx_getElem hidx').2
          rw [h₁] at h₂
          exact hne (Option.some.inj h₂).symm
        simp [List.getD_eq_getElem?_getD, List.getElem?_set_ne hii]

theorem mapColumn_at_target {d : Dataset} {c : String} {f : Value → Value}
    {e : Dataset} (he : mapColumn d c f = .ok e) (hwf : d.wf) (j : Nat) :
    e.at j c = (d.at j c).map f := by
  unfold mapColumn at he
  cases hidx : d.colIdx c with
  | none => rw [hidx] at he; exact absurd he (by simp)
  | some i =>
    rw [hidx] at he
    cases he
    show ((d.rows.map _)[j]?).bind _ = ((d.rows[j]?).bind _).map f
    rw [List.getElem?_map]
    cases hrow : d.rows[j]? with
    | none => rfl
    | some r =>
      simp only [Option.map_some', Option.some_bind]
      have hcols : Dataset.colIdx ⟨d.cols, d.rows.map fun r =>
          r.set i (f (r.getD i .missing))⟩ c = d.colIdx c := rfl
      show (Dataset.colIdx ⟨d.cols, _⟩ c).map _ = _
      rw [hcols, hidx]
      simp only [Option.map_some', Option.some.injEq, Option.map_map]
      have hlen : i < r.length := by
        rw [hwf r (List.getElem?_mem hrow)]
        exact (colIdx_getElem hidx).1
      simp [List.getD_eq_getElem?_getD, List.getElem?_set_self hlen]

/-! ## Helper lemmas on `dropRowsWithMissing` and the pipeline -/

theorem dropRows_ok {d : Dataset} {cs : List String} (h : ∀ c ∈ cs, c ∈ d.cols) :
    dropRowsWithMissing d cs =
      .ok ⟨d.cols, d.rows.filter fun r => !(cs.any (rowMissingAt d.cols r))⟩ := by
  unfold dropRowsWithMissing
  have hnone : cs.find? (fun c => !(d.cols.contains c)) = none := by
    rw [List.find?_eq_none]
    intro x hx
    simp [List.contains, h x hx]
  rw [hnone]

theorem dropRows_absent {d : Dataset} {cs : List String}
    (h : ∃ c ∈ cs, c ∉ d.cols) :
    ∃ c, c ∈ cs ∧ c ∉ d.cols ∧
      dropRowsWithMissing d cs = .error (.schemaError c) := by
  cases hfind : cs.find? (fun c => !(d.cols.contains c)) with
  | none =>
    exfalso
    obtain ⟨c, hc, hnc⟩ := h
    have := List.find?_eq_none.mp hfind c hc
    simp [List.contains] at this
    exact hnc this
  | some c =>
    have hp := List.find?_some hfind
    have hmem := List.mem_of_find?_eq_some hfind
    refine ⟨c, hmem, ?_, ?_⟩
    · intro hcmem
      simp [List.contains, hcmem] at hp
    · unfold dropRowsWithMissing
      rw [hfind]

theorem runPipeline_append_error (rest : List Step) :
    ∀ (steps : List Step) (d : Dataset) (err : CleanError),
      runPipeline d steps = .error err →
      runPipeline d (steps ++ rest) = .error err := by
  intro steps
  induction steps with
  | nil =>
    intro d err h
    exact absurd h (by simp [runPipeline])
  | cons s t ih =>
    intro d err h
    rw [List.cons_append]
    rw [runPipeline] at h ⊢
    cases hap : applyStep d s with
    | ok e => rw [hap] at h; exact ih e err h
    | error e2 => rw [hap] at h; exact h

/-! ## Helper lemmas on `normalizeCase` -/

theorem normalizeCase_absent {d : Dataset} {c : String} (m : Mode)
    (h : c ∉ d.cols) : normalizeCase d c m = .error (.schemaError c) := by
  unfold normalizeCase
  rw [colIdx_of_not_mem h]

theorem normalizeCase_accepted {d : Dataset} {c : String} {i : Nat} (m : Mode)
    (hi : d.colIdx c = some i) (hok : strAccOk (d.columnVals i) = true) :
    normalizeCase d c m = mapColumn d c (applyCase m) := by
  unfold normalizeCase
  rw [hi]
  simp [hok]

theorem normalizeCase_refused {d : Dataset} {c : String} {i : Nat} (m : Mode)
    (hi : d.colIdx c = some i) (hok : strAccOk (d.columnVals i) = false) :
    normalizeCase d c m = .error (.attrError c) := by
  unfold normalizeCase
  rw [hi]
  simp [hok]

theorem normalizeCase_ok_mapColumn {d : Dataset} {c : String} {m : Mode}
    {e : Dataset} (h : normalizeCase d c m = .ok e) :
    mapColumn d c (applyCase m) = .ok e := by
  unfold normalizeCase at h
  cases hidx : d.colIdx c with
  | none => rw [hidx] at h; exact absurd h (by simp)
  | some i =>
    rw [hidx] at h
    cases hok : strAccOk (d.columnVals i) with
    | true =>
      simp only [hok, if_true] at h
      exact h
    | false =>
      simp only [hok, Bool.false_eq_true, if_false] at h
      exact absurd h (by simp)

/-! ## Claim theorems -/

/-- Claim C8: for every dataset `d`, `deduplicate (deduplicate d) =
deduplicate d` — applying `deduplicate` twice yields the same result as
applying it once. -/
theorem deduplicate_idempotent (d : Dataset) :
    deduplicate (deduplicate d) = deduplicate d := by
  unfold deduplicate
  simp only [Dataset.mk.injEq, true_and]
  exact dedupKeepFirst_idem d.rows

/-- Claim C9: for every dataset `d`, `trimColumnNames (trimColumnNames d) =
trimColumnNames d` — removing leading/trailing whitespace from every column
name is idempotent. -/
theorem trimColumnNames_idempotent (d : Dataset) :
    trimColumnNames (trimColumnNames d) = trimColumnNames d := by
  unfold trimColumnNames
  simp only [Dataset.mk.injEq, and_true, List.map_map]
  exact List.map_congr_left fun a _ => pstrip_idem a

/-- Claim C7: for every dataset and existing column `c`, the record count
after `dropRowsWithMissing [c]` is at most the count before, and the
surviving rows are a sublist of the original rows — each surviving record is
field-for-field one of the original records, in the original order. -/
theorem dropRowsWithMissing_frame (d : Dataset) (c : String)
    (hc : c ∈ d.cols) :
    ∃ e, dropRowsWithMissing d [c] = Except.ok e ∧
      e.rows.length ≤ d.rows.length ∧ List.Sublist e.rows d.rows := by
  have h : ∀ c' ∈ [c], c' ∈ d.cols := by
    intro c' hc'
    rcases List.mem_singleton.mp hc' with rfl
    exact hc
  refine ⟨_, dropRows_ok h, ?_, ?_⟩
  · exact List.length_filter_le _ _
  · exact List.filter_sublist _

/-- Witness for claim C7 at the five-record Email dataset: the hypothesis
holds and the conclusion follows by the theorem. -/
theorem dropRowsWithMissing_frame_witness :
    ("Email" ∈ dsEmails5Missing.cols) ∧
    (∃ e, dropRowsWithMissing dsEmails5Missing ["Email"] = Except.ok e ∧
      e.rows.length ≤ dsEmails5Missing.rows.length ∧
      List.Sublist e.rows dsEmails5Missing.rows) :=
  ⟨by decide, dropRowsWithMissing_frame dsEmails5Missing "Email" (by decide)⟩

/-- Claim C3: an operation that references an absent column fails with a
`SchemaError` naming that column (`parseDates`, `fillMissing`,
`normalizeCase`, `dropRowsWithMissing`), and a pipeline whose earlier steps
have failed returns that error whatever steps follow — the failure is surfaced
immediately, the pipeline aborts, and no output dataset is produced. -/
theorem schemaError_spec :
    (∀ (d : Dataset) (c : String), c ∉ d.cols →
      parseDates d c = Except.error (.schemaError c)) ∧
    (∀ (d : Dataset) (c : String) (v : Value), c ∉ d.cols →
      fillMissing d c v = Except.error (.schemaError c)) ∧
    (∀ (d : Dataset) (c : String) (m : Mode), c ∉ d.cols →
      normalizeCase d c m = Except.error (.schemaError c)) ∧
    (∀ (d : Dataset) (cs : List String), (∃ c ∈ cs, c ∉ d.cols) →
      ∃ c, c ∈ cs ∧ c ∉ d.cols ∧
        dropRowsWithMissing d cs = Except.error (.schemaError c)) ∧
    (∀ (d : Dataset) (steps rest : List Step) (err : CleanError),
      runPipeline d steps = Except.error err →
      runPipeline d (steps ++ rest) = Except.error err) := by
  refine ⟨?_, ?_, ?_, ?_, ?_⟩
  · intro d c h
    exact mapColumn_absent toDatetime h
  · intro d c v h
    exact mapColumn_absent (fillnaVal v) h
  · intro d c m h
    exact normalizeCase_absent m h
  · intro d cs h
    exact dropRows_absent h
  · intro d steps rest err h
    exact runPipeline_append_error rest steps d err h

/-- Witness for claim C3: referencing the absent column `"B"` on the City
dataset makes `parseDates` fail with the `SchemaError` naming `"B"`. -/
theorem schemaError_spec_witness :
    ("B" ∉ dsCity.cols) ∧
    parseDates dsCity "B" = Except.error (.schemaError "B") :=
  ⟨by decide, schemaError_spec.1 dsCity "B" (by decide)⟩

/-- Counterexample to claim C1 as stated: the claim predicts that a
non-string value in the column passes through `normalizeCase(c, upper)`
unchanged, so on the mixed Country column holding `"chile"` and the integer
7 the output should hold `"CHILE"` and the integer 7.  The mixed column is
accepted by the `.str` accessor (inferred dtype mixed-integer), and the
accessor then turns the integer into the missing marker, not into itself. -/
theorem normalizeCase_upper_counterexample :
    normalizeUpperPassThruSpec (.vInt 7) = .vInt 7 ∧
    normalizeCase dsCountryMixed "Country" .upper ≠
      Except.ok ⟨["Country"], [[.vStr "CHILE"], [.vInt 7]]⟩ ∧
    normalizeCase dsCountryMixed "Country" .upper =
      Except.ok ⟨["Country"], [[.vStr "CHILE"], [.missing]]⟩ := by
  decide

/-- Claim C1 (amended): for every well-formed dataset and existing column
`c`, when the `.str` accessor accepts the column (it is empty or
all-missing, holds a string among its non-missing values, or mixes value
kinds), `normalizeCase(c, upper)` succeeds, trims whitespace and then
uppercases every string value of column `c` — so `"chile"`, `" Chile "` and
`"CHILE"` all become `"CHILE"` — and every non-string value of column `c`
becomes the missing marker (it does not pass through unchanged); when the
accessor refuses the column (its non-missing values are all integers or all
datetimes), the operation fails with the `AttributeError` and the run
aborts. -/
theorem normalizeCase_upper_spec :
    (∀ (d : Dataset) (c : String), c ∈ d.cols → d.wf →
      ∃ i, d.colIdx c = some i ∧
        (strAccOk (d.columnVals i) = true →
          ∃ e, normalizeCase d c .upper = Except.ok e ∧
            (∀ j s, d.at j c = some (.vStr s) →
              e.at j c = some (.vStr (pupper (pstrip s)))) ∧
            (∀ j v, d.at j c = some v → (∀ s, v ≠ .vStr s) →
              e.at j c = some .missing)) ∧
        (strAccOk (d.columnVals i) = false →
          normalizeCase d c .upper = Except.error (.attrError c))) ∧
    normalizeCase dsCountry "Country" .upper =
      Except.ok ⟨["Country"], [[.vStr "CHILE"], [.vStr "CHILE"], [.vStr "CHILE"]]⟩ := by
  constructor
  · intro d c hc hwf
    obtain ⟨i, hi, heq⟩ :=
      mapColumn_ok (d := d) (c := c) (applyCase .upper) hc
    refine ⟨i, hi, ?_, ?_⟩
    · intro hok
      refine ⟨_, (normalizeCase_accepted .upper hi hok).trans heq, ?_, ?_⟩
      · intro j s hat
        have hmap := mapColumn_at_target heq hwf j
        rw [hmap, hat]
        simp [applyCase, strAccStrip, strAccUpper]
      · intro j v hat hnv
        have hmap := mapColumn_at_target heq hwf j
        rw [hmap, hat]
        cases v with
        | vStr s => exact absurd rfl (hnv s)
        | vInt n => simp [applyCase, strAccStrip, strAccUpper]
        | vDate t => simp [applyCase, strAccStrip, strAccUpper]
        | missing => simp [applyCase, strAccStrip, strAccUpper]
    · intro hok
      exact normalizeCase_refused .upper hi hok
  · decide

/-- Witness for claim C1 at the scenario Country dataset. -/
theorem normalizeCase_upper_spec_witness :
    (("Country" ∈ dsCountry.cols) ∧ dsCountry.wf) ∧
    (∃ i, dsCountry.colIdx "Country" = some i ∧
      (strAccOk (dsCountry.columnVals i) = true →
        ∃ e, normalizeCase dsCountry "Country" .upper = Except.ok e ∧
          (∀ j s, dsCountry.at j "Country" = some (.vStr s) →
            e.at j "Country" = some (.vStr (pupper (pstrip s)))) ∧
          (∀ j v, dsCountry.at j "Country" = some v → (∀ s, v ≠ .vStr s) →
            e.at j "Country" = some .missing)) ∧
      (strAccOk (dsCountry.columnVals i) = false →
        normalizeCase dsCountry "Country" .upper =
          Except.error (.attrError "Country"))) :=
  ⟨⟨by decide, by decide⟩,
    normalizeCase_upper_spec.1 dsCountry "Country" (by decide) (by decide)⟩

/-- Counterexample to claim C2 as stated: the claim treats an empty value as
removable ("missing or empty"), so on five records whose third has an
empty-string Email it predicts four output records; the code (`dropna`) only
drops the missing marker, keeps the empty-string record, and returns all
five records unchanged. -/
theorem dropRowsWithMissing_counterexample :
    (dropRowsMissingOrEmptySpec dsEmails5EmptyStr ["Email"]).length = 4 ∧
    dropRowsWithMissing dsEmails5EmptyStr ["Email"] =
      Except.ok dsEmails5EmptyStr ∧
    dsEmails5EmptyStr.rows.length = 5 := by
  decide

/-- Claim C2 (amended): for every dataset and list of existing columns `cs`,
`dropRowsWithMissing cs` removes exactly the records in which at least one
column of `cs` holds the missing marker (an empty string is a value, not
missing, and is kept), and is a no-op when no record qualifies; on a
5-record input whose third record has the missing marker in the Email field
the output has the other 4 records. -/
theorem dropRowsWithMissing_spec :
    (∀ (d : Dataset) (cs : List String), (∀ c ∈ cs, c ∈ d.cols) →
      ∃ e, dropRowsWithMissing d cs = Except.ok e ∧ e.cols = d.cols ∧
        (∀ r, r ∈ e.rows ↔
          r ∈ d.rows ∧ ∀ c ∈ cs, rowMissingAt d.cols r c = false) ∧
        List.Sublist e.rows d.rows ∧
        ((∀ r ∈ d.rows, ∀ c ∈ cs, rowMissingAt d.cols r c = false) →
          e = d)) ∧
    dropRowsWithMissing dsEmails5Missing ["Email"] =
      Except.ok ⟨["Name", "Email"],
        [[.vStr "a", .vStr "a@x.com"],
         [.vStr "b", .vStr "b@x.com"],
         [.vStr "d", .vStr "d@x.com"],
         [.vStr "e", .vStr "e@x.com"]]⟩ := by
  constructor
  · intro d cs h
    refine ⟨_, dropRows_ok h, rfl, ?_, List.filter_sublist _, ?_⟩
    · intro r
      simp [List.mem_filter, List.any_eq_false]
    · intro hall
      have hfix : (d.rows.filter fun r => !(cs.any (rowMissingAt d.cols r)))
          = d.rows := by
        rw [List.filter_eq_self]
        intro r hr
        simp only [Bool.not_eq_true', List.any_eq_false, Bool.not_eq_true]
        exact hall r hr
      cases d with
      | mk cols rows =>
        simp only at hfix
        simp [hfix]
  · decide

/-- Witness for claim C2 at the five-record dataset whose third record has
the missing marker in the Email column. -/
theorem dropRowsWithMissing_spec_witness :
    (∀ c ∈ ["Email"], c ∈ dsEmails5Missing.cols) ∧
    (∃ e, dropRowsWithMissing dsEmails5Missing ["Email"] = Except.ok e ∧
      e.cols = dsEmails5Missing.cols ∧
      (∀ r, r ∈ e.rows ↔
        r ∈ dsEmails5Missing.rows ∧
        ∀ c ∈ ["Email"], rowMissingAt dsEmails5Missing.cols r c = false) ∧
      List.Sublist e.rows dsEmails5Missing.rows ∧
      ((∀ r ∈ dsEmails5Missing.rows, ∀ c ∈ ["Email"],
        rowMissingAt dsEmails5Missing.cols r c = false) →
        e = dsEmails5Missing)) :=
  ⟨by decide, dropRowsWithMissing_spec.1 dsEmails5Missing ["Email"] (by decide)⟩

/-- Claim C4: for every well-formed dataset and existing column `c`,
`parseDates c` succeeds (the run completes, nothing is raised), rewrites
column `c` elementwise by the coercing date parse, turns every parseable
string into the parsed datetime, and turns every unparseable string (such as
`"not-a-date"`) into the missing marker. -/
theorem parseDates_spec :
    (∀ (d : Dataset) (c : String), c ∈ d.cols → d.wf →
      ∃ e, parseDates d c = Except.ok e ∧
        (∀ j, e.at j c = (d.at j c).map toDatetime) ∧
        (∀ j s t, d.at j c = some (.vStr s) → parseYMD s = some t →
          e.at j c = some (.vDate t)) ∧
        (∀ j s, d.at j c = some (.vStr s) → parseYMD s = none →
          e.at j c = some .missing)) ∧
    parseDates dsDates "Subscription Date" =
      Except.ok ⟨["Subscription Date"],
        [[.vDate 1598227200000000000], [.missing]]⟩ := by
  constructor
  · intro d c hc hwf
    obtain ⟨i, hi, heq⟩ := mapColumn_ok (d := d) (c := c) toDatetime hc
    refine ⟨_, heq, ?_, ?_, ?_⟩
    · intro j
      exact mapColumn_at_target heq hwf j
    · intro j s t hat hp
      rw [mapColumn_at_target heq hwf j, hat]
      simp [toDatetime, hp]
    · intro j s hat hp
      rw [mapColumn_at_target heq hwf j, hat]
      simp [toDatetime, hp]
  · decide

/-- Witness for claim C4 at the Subscription Date dataset holding
`"2020-08-24"` and `"not-a-date"`. -/
theorem parseDates_spec_witness :
    (("Subscription Date" ∈ dsDates.cols) ∧ dsDates.wf) ∧
    (∃ e, parseDates dsDates "Subscription Date" = Except.ok e ∧
      (∀ j, e.at j "Subscription Date" =
        (dsDates.at j "Subscription Date").map toDatetime) ∧
      (∀ j s t, dsDates.at j "Subscription Date" = some (.vStr s) →
        parseYMD s = some t →
        e.at j "Subscription Date" = some (.vDate t)) ∧
      (∀ j s, dsDates.at j "Subscription Date" = some (.vStr s) →
        parseYMD s = none →
        e.at j "Subscription Date" = some .missing)) :=
  ⟨⟨by decide, by decide⟩,
    parseDates_spec.1 dsDates "Subscription Date" (by decide) (by decide)⟩

/-- Claim C5: for every dataset, `deduplicate` keeps the column list, keeps
a subsequence of the rows (the relative order of the remaining records is
preserved and surviving records are unchanged), keeps a record exactly when
it occurred in the input, leaves no two identical records, and keeps the
first occurrence of each record: of two identical records differing only in
row position, the first-occurring one remains. -/
theorem deduplicate_spec :
    (∀ d : Dataset, (deduplicate d).cols = d.cols ∧
      List.Sublist (deduplicate d).rows d.rows ∧
      (∀ r, r ∈ (deduplicate d).rows ↔ r ∈ d.rows) ∧
      (deduplicate d).rows.Nodup ∧
      (∀ (l₁ l₂ : List Record) (r : Record),
        d.rows = l₁ ++ r :: l₂ → r ∉ l₁ →
        ∃ k₁ k₂, (deduplicate d).rows = k₁ ++ r :: k₂ ∧
          List.Sublist k₁ l₁)) ∧
    deduplicate dsDupRows = ⟨["Name", "City"], [[.vStr "a", .vStr "x"]]⟩ := by
  constructor
  · intro d
    refine ⟨rfl, dedupSeen_sublist [] d.rows, ?_,
      nodup_dedupSeen [] d.rows, ?_⟩
    · intro r
      show r ∈ dedupSeen [] d.rows ↔ _
      rw [mem_dedupSeen]
      simp
    · intro l₁ l₂ r hsplit hnot
      show ∃ k₁ k₂, dedupSeen [] d.rows = k₁ ++ r :: k₂ ∧ List.Sublist k₁ l₁
      rw [hsplit]
      exact dedupSeen_first_occ l₂ (List.not_mem_nil r) hnot
  · decide

/-- Witness for claim C5 at the two identical records of `dsDupRows`: the
first occurrence survives. -/
theorem deduplicate_spec_witness :
    (dsDupRows.rows =
      [] ++ [Value.vStr "a", Value.vStr "x"] :: [[Value.vStr "a", Value.vStr "x"]] ∧
      [Value.vStr "a", Value.vStr "x"] ∉ ([] : List Record)) ∧
    (∃ k₁ k₂, (deduplicate dsDupRows).rows =
      k₁ ++ [Value.vStr "a", Value.vStr "x"] :: k₂ ∧
      List.Sublist k₁ []) :=
  ⟨⟨by decide, by decide⟩,
    (deduplicate_spec.1 dsDupRows).2.2.2.2 [] [[Value.vStr "a", Value.vStr "x"]]
      [Value.vStr "a", Value.vStr "x"] (by decide) (by decide)⟩

/-- Claim C6: for every well-formed dataset, existing column `c` and value
`v`, `fillMissing c v` leaves every non-missing value in column `c`
unchanged and sets every previously-missing value in column `c` to `v`. -/
theorem fillMissing_spec (d : Dataset) (c : String) (v : Value)
    (hc : c ∈ d.cols) (hwf : d.wf) :
    ∃ e, fillMissing d c v = Except.ok e ∧
      (∀ j w, d.at j c = some w → w ≠ .missing → e.at j c = some w) ∧
      (∀ j, d.at j c = some .missing → e.at j c = some v) := by
  obtain ⟨i, hi, heq⟩ := mapColumn_ok (d := d) (c := c) (fillnaVal v) hc
  refine ⟨_, heq, ?_, ?_⟩
  · intro j w hat hw
    rw [mapColumn_at_target heq hwf j, hat]
    cases w with
    | vStr s => simp [fillnaVal]
    | vInt n => simp [fillnaVal]
    | vDate t => simp [fillnaVal]
    | missing => exact absurd rfl hw
  · intro j hat
    rw [mapColumn_at_target heq hwf j, hat]
    simp [fillnaVal]

/-- Witness for claim C6 at the City dataset, filling with `"Unknown"`. -/
theorem fillMissing_spec_witness :
    (("City" ∈ dsCity.cols) ∧ dsCity.wf) ∧
    (∃ e, fillMissing dsCity "City" (.vStr "Unknown") = Except.ok e ∧
      (∀ j w, dsCity.at j "City" = some w → w ≠ .missing →
        e.at j "City" = some w) ∧
      (∀ j, dsCity.at j "City" = some .missing →
        e.at j "City" = some (.vStr "Unknown"))) :=
  ⟨⟨by decide, by decide⟩,
    fillMissing_spec dsCity "City" (.vStr "Unknown") (by decide) (by decide)⟩

/-- Claim C10: each column-targeted operation — `parseDates c`,
`fillMissing c v`, `normalizeCase c m` — leaves the column list, the record
count, the record order and the values of every column other than `c`
unchanged in every record of whatever dataset it outputs; `parseDates` and
`fillMissing` always output a dataset on an existing column, and
`normalizeCase` outputs one whenever the `.str` accessor accepts the column
(otherwise it aborts and outputs nothing). -/
theorem columnOps_frame (d : Dataset) (c : String) (v : Value) (m : Mode)
    (hc : c ∈ d.cols) :
    (∃ e, parseDates d c = Except.ok e) ∧
    (∃ e, fillMissing d c v = Except.ok e) ∧
    ∀ e, parseDates d c = Except.ok e ∨ fillMissing d c v = Except.ok e ∨
        normalizeCase d c m = Except.ok e →
      e.cols = d.cols ∧ e.rows.length = d.rows.length ∧
      ∀ (j : Nat) (c' : String), c' ≠ c → e.at j c' = d.at j c' := by
  obtain ⟨i₁, hi₁, h₁⟩ := mapColumn_ok (d := d) (c := c) toDatetime hc
  obtain ⟨i₂, hi₂, h₂⟩ := mapColumn_ok (d := d) (c := c) (fillnaVal v) hc
  refine ⟨⟨_, h₁⟩, ⟨_, h₂⟩, ?_⟩
  intro e he
  have hmap : mapColumn d c toDatetime = Except.ok e ∨
      mapColumn d c (fillnaVal v) = Except.ok e ∨
      mapColumn d c (applyCase m) = Except.ok e := by
    rcases he with h | h | h
    · exact Or.inl h
    · exact Or.inr (Or.inl h)
    · exact Or.inr (Or.inr (normalizeCase_ok_mapColumn h))
  rcases hmap with h | h | h
  · exact ⟨(mapColumn_cols_length h).1, (mapColumn_cols_length h).2,
      fun j c' hne => mapColumn_at_other h hne j⟩
  · exact ⟨(mapColumn_cols_length h).1, (mapColumn_cols_length h).2,
      fun j c' hne => mapColumn_at_other h hne j⟩
  · exact ⟨(mapColumn_cols_length h).1, (mapColumn_cols_length h).2,
      fun j c' hne => mapColumn_at_other h hne j⟩

/-- Witness for claim C10 at the five-record Email dataset. -/
theorem columnOps_frame_witness :
    ("Email" ∈ dsEmails5Missing.cols) ∧
    ((∃ e, parseDates dsEmails5Missing "Email" = Except.ok e) ∧
      (∃ e, fillMissing dsEmails5Missing "Email" (.vStr "u") = Except.ok e) ∧
      ∀ e, parseDates dsEmails5Missing "Email" = Except.ok e ∨
          fillMissing dsEmails5Missing "Email" (.vStr "u") = Except.ok e ∨
          normalizeCase dsEmails5Missing "Email" .upper = Except.ok e →
        e.cols = dsEmails5Missing.cols ∧
        e.rows.length = dsEmails5Missing.rows.length ∧
        ∀ (j : Nat) (c' : String), c' ≠ "Email" →
          e.at j c' = dsEmails5Missing.at j c') :=
  ⟨by decide,
    columnOps_frame dsEmails5Missing "Email" (.vStr "u") .upper (by decide)⟩
